import Mathlib

/-!
# patchsvg: a verification development

A shallow embedding of `main.go` of the `patchsvg` command line tool, with the
properties of its specification proved on it.

Conventions of the embedding.

* A Go `string` is a Lean `String`; `len` is the length in bytes of its UTF-8
  encoding.  The strings that reach `parseViewBox` come out of the XML
  decoder, which only produces valid UTF-8.
* A Go `int` is a Lean `Int`; the target is a 64-bit platform
  (`strconv.IntSize = 64`), and the range checks of `strconv` are explicit.
* A Go `error` is a value of `Error`; a function returning `(T, error)` is a
  function into `Except Error T`.
* A function that mutates its argument through a pointer (`fixSVG`) returns
  the new value of the pointee next to its result.
* The operating system and the `encoding/xml` package are parameters of the
  functions that call them (`OS`, `Codec`, `World`).
-/

set_option autoImplicit false

namespace Patchsvg

/-! ## Errors -/

/-- The two sentinel errors of package `strconv`. -/
inductive NumErr where
  | ErrSyntax
  | ErrRange
  deriving DecidableEq, Repr

/-- The errors the program can produce: a `fmt.Errorf` error with its message,
a `*strconv.NumError` with its fields `Func`, `Num` and `Err`, and an error
of another package (`encoding/xml`, `os`, `path/filepath`) with its message. -/
inductive Error where
  | Errorf (msg : String)
  | NumError (Func : String) (Num : String) (Err : NumErr)
  | Other (msg : String)
  deriving DecidableEq, Repr

/-- Equality of results is decidable. -/
instance instDecidableEqExcept {ε α : Type} [DecidableEq ε] [DecidableEq α] :
    DecidableEq (Except ε α)
  | Except.ok a, Except.ok b =>
    if h : a = b then isTrue (by rw [h]) else isFalse (fun h2 => h (Except.ok.inj h2))
  | Except.error a, Except.error b =>
    if h : a = b then isTrue (by rw [h]) else isFalse (fun h2 => h (Except.error.inj h2))
  | Except.ok _, Except.error _ => isFalse (fun h => Except.noConfusion h)
  | Except.error _, Except.ok _ => isFalse (fun h => Except.noConfusion h)

/-! ## Package `strings` -/

/-- The fields of a character sequence around each occurrence of `sep`. -/
def splitChars (sep : Char) : List Char → List (List Char)
  | [] => [[]]
  | c :: cs =>
    if c = sep then [] :: splitChars sep cs
    else
      match splitChars sep cs with
      | f :: fs => (c :: f) :: fs
      | [] => [[c]]

/-- Go's `strings.Split(s, sep)` for a separator of one character, the only
use in the source (`strings.Split(g.ViewBox, " ")`): the substrings of `s`
between the occurrences of `sep`, in order; `Count(s, sep) + 1` of them, so
one (the empty string) for the empty string. -/
def Split (s : String) (sep : Char) : List String :=
  (splitChars sep s.data).map String.mk

/-! ## Package `strconv` -/

/-- The constant `strconv.IntSize` of a 64-bit platform. -/
def intSize : Nat := 64

/-- The largest `uint64`. -/
def maxUint64 : Nat := 2 ^ 64 - 1

/-- Go's `len(s)`: the number of bytes of the string. -/
def len (s : List Char) : Nat := (s.map Char.utf8Size).sum

/-- The test `'0' <= c && c <= '9'`. -/
def isDigit (c : Char) : Bool := decide ('0'.toNat ≤ c.toNat) && decide (c.toNat ≤ '9'.toNat)

/-- The value `c - '0'` of a digit. -/
def digitVal (c : Char) : Nat := c.toNat - '0'.toNat

/-- The loop of `strconv.ParseUint(s, 10, 64)` over the characters of `s`,
from the accumulator `n`.  A character that is not a decimal digit is a
syntax error (a letter is a digit of value at least 10, which base 10
rejects; the underscore is only accepted with base 0).  `cutoff` is
`maxUint64/10 + 1`; the sum `n*10 + d` is computed modulo `2^64` and compared
as the source does. -/
def parseUintLoop : List Char → Nat → Except NumErr Nat
  | [], n => Except.ok n
  | c :: cs, n =>
    if isDigit c then
      if n ≥ maxUint64 / 10 + 1 then Except.error NumErr.ErrRange
      else
        let n10 := n * 10
        let n1 := (n10 + digitVal c) % 2 ^ 64
        if n1 < n10 ∨ n1 > maxUint64 then Except.error NumErr.ErrRange
        else parseUintLoop cs n1
    else Except.error NumErr.ErrSyntax

/-- Go's `strconv.ParseUint(s, 10, 64)`, with the kind of error only. -/
def ParseUint (s : List Char) : Except NumErr Nat :=
  if s = [] then Except.error NumErr.ErrSyntax else parseUintLoop s 0

/-- Go's `strconv.ParseInt(s, 10, 0)`, with the kind of error only: an
optional sign, then `ParseUint`, then the range check against
`cutoff = 1 << (IntSize - 1)`. -/
def ParseInt (s : List Char) : Except NumErr Int :=
  match s with
  | [] => Except.error NumErr.ErrSyntax
  | c :: cs =>
    let neg := decide (c = '-')
    let body := if c = '+' ∨ c = '-' then cs else c :: cs
    match ParseUint body with
    | Except.error e => Except.error e
    | Except.ok un =>
      let cutoff := 2 ^ (intSize - 1)
      if ¬ neg ∧ un ≥ cutoff then Except.error NumErr.ErrRange
      else if neg ∧ un > cutoff then Except.error NumErr.ErrRange
      else if neg then Except.ok (-(un : Int)) else Except.ok (un : Int)

/-- The digit loop of the fast path of `strconv.Atoi`: `n = n*10 + int(ch)`
for each character, a syntax error at the first one that is not a digit. -/
def atoiFastLoop : List Char → Nat → Except NumErr Nat
  | [], n => Except.ok n
  | c :: cs, n =>
    if isDigit c then atoiFastLoop cs (n * 10 + digitVal c)
    else Except.error NumErr.ErrSyntax

/-- The fast path of `strconv.Atoi`, taken for a string of 1 to 18 bytes. -/
def atoiFast (s : List Char) : Except NumErr Int :=
  match s with
  | [] => Except.error NumErr.ErrSyntax
  | c :: cs =>
    let body := if c = '-' ∨ c = '+' then cs else c :: cs
    if len body < 1 then Except.error NumErr.ErrSyntax
    else
      match atoiFastLoop body 0 with
      | Except.error e => Except.error e
      | Except.ok n => if c = '-' then Except.ok (-(n : Int)) else Except.ok (n : Int)

/-- Go's `strconv.Atoi(s)`: the fast path for a string of 1 to 18 bytes
(`intSize == 64 && 0 < sLen && sLen < 19`), `ParseInt(s, 10, 0)` otherwise.
Every error is a `*NumError` with `Func = "Atoi"` and `Num = s`. -/
def Atoi (s : String) : Except Error Int :=
  let r := if 0 < len s.data ∧ len s.data < 19 then atoiFast s.data else ParseInt s.data
  match r with
  | Except.ok n => Except.ok n
  | Except.error e => Except.error (Error.NumError "Atoi" s e)

/-- The decimal digits of `n`, the most significant first, in front of `acc`;
`fuel` bounds the number of digits. -/
def formatDigits : Nat → Nat → List Char → List Char
  | 0, _, acc => acc
  | fuel + 1, n, acc =>
    if n < 10 then Char.ofNat ('0'.toNat + n) :: acc
    else formatDigits fuel (n / 10) (Char.ofNat ('0'.toNat + n % 10) :: acc)

/-- Go's `strconv.Itoa(i)`, that is `FormatInt(int64(i), 10)`: the decimal
digits of the absolute value, after a minus sign when `i` is negative. -/
def Itoa (i : Int) : String :=
  let ds := formatDigits (i.natAbs + 1) i.natAbs []
  if i < 0 then String.mk ('-' :: ds) else String.mk ds

/-! ## The SVG model -/

/-- Go's `xml.Name`. -/
structure Name where
  Space : String
  Local : String
  deriving DecidableEq, Repr

/-- The type `Path` of the source. -/
structure Path where
  D : String
  deriving DecidableEq, Repr

/-- The type `SVG` of the source. -/
structure SVG where
  XMLName : Name
  XMLns : String
  Width : String
  Height : String
  ViewBox : String
  Path : Path
  deriving DecidableEq, Repr

/-- The function `parseViewBox` of the source. -/
def parseViewBox (g : SVG) : Except Error (Int × Int) :=
  if g.ViewBox = "" then Except.error (Error.Errorf "No viewBox defined")
  else
    let parts := Split g.ViewBox ' '
    if parts.length ≠ 4 then Except.error (Error.Errorf "viewBox not probably defined")
    else
      match Atoi (parts.getD 2 "") with
      | Except.error err => Except.error err
      | Except.ok width =>
        match Atoi (parts.getD 3 "") with
        | Except.error err => Except.error err
        | Except.ok height => Except.ok (width, height)

/-- The function `fixSVG` of the source: the document after the call, and the
error returned (`none` for `nil`). -/
def fixSVG (g : SVG) : SVG × Option Error :=
  match parseViewBox g with
  | Except.error err => (g, some err)
  | Except.ok (width, height) =>
    ({ g with Width := Itoa width, Height := Itoa height }, none)


/-! ## Package `path/filepath` and the file selector -/

/-- The loop of `filepath.Ext` on a Unix system, over the characters of the
path from the last one backwards: `rest` is what is left to scan, reversed,
and `acc` the characters already passed.  It stops with the empty extension
at a path separator, and with the dot and what follows it at a dot. -/
def extLoop : List Char → List Char → List Char
  | [], _ => []
  | c :: rest, acc =>
    if c = '/' then []
    else if c = '.' then '.' :: acc
    else extLoop rest (c :: acc)

/-- Go's `filepath.Ext(path)`: the suffix beginning at the final dot in the
final element of the path; empty if there is no dot. -/
def Ext (path : String) : String := String.mk (extLoop path.data.reverse [])

/-- What the program reads of an `os.FileInfo`. -/
structure FileInfo where
  IsDir : Bool
  deriving DecidableEq, Repr

/-- The two calls to the operating system of `identifyFiles`, as functions of
their argument: `filepath.Glob` and `os.Stat`. -/
structure OS where
  Glob : String → Except Error (List String)
  Stat : String → Except Error FileInfo

/-- The loop `for _, path := range files1` of `identifyFiles`, from the value
`files2` has when it starts. -/
def identifyLoop (os : OS) : List String → List String → Except Error (List String)
  | [], files2 => Except.ok files2
  | path :: rest, files2 =>
    match os.Stat path with
    | Except.error err => Except.error err
    | Except.ok fileInfo =>
      if fileInfo.IsDir then identifyLoop os rest files2
      else if Ext path ≠ ".svg" then identifyLoop os rest files2
      else identifyLoop os rest (files2 ++ [path])

/-- The function `identifyFiles` of the source. -/
def identifyFiles (os : OS) (pattern : String) : Except Error (List String) :=
  match os.Glob pattern with
  | Except.error err => Except.error err
  | Except.ok files1 => identifyLoop os files1 []

/-! ## The patcher and the orchestrator -/

/-- Go's `[]byte`. -/
abbrev Bytes := List UInt8

/-- The two functions of package `encoding/xml` the program calls, on the
type `SVG`: `xml.Unmarshal(dat, &g)` from the zero value of `g`, and
`xml.Marshal(g)`. -/
structure Codec where
  Unmarshal : Bytes → Except Error SVG
  Marshal : SVG → Except Error Bytes

/-- The function `modifyFile` of the source. -/
def modifyFile (xml : Codec) (dat : Bytes) : Except Error Bytes :=
  match xml.Unmarshal dat with
  | Except.error err => Except.error err
  | Except.ok g =>
    match fixSVG g with
    | (_, some err) => Except.error err
    | (g2, none) => xml.Marshal g2

/-- A line the program prints: `SKIPPED: <path>: <err>` or `Fixed: <path>`. -/
inductive Output where
  | Skipped (path : String) (err : Error)
  | Fixed (path : String)
  deriving DecidableEq, Repr

/-- The state the loop of `main` works on: what `os.ReadFile` returns for each
path, the error `os.WriteFile` returns for each path (`none` when it
succeeds), and the lines printed so far.  Two different paths name two
different files. -/
structure World where
  read : String → Except Error Bytes
  writeErr : String → Option Error
  stdout : List Output

/-- Go's `os.WriteFile(path, dat, 0644)`: the error, or the state in which the
file holds `dat`. -/
def WriteFile (w : World) (path : String) (dat : Bytes) : Except Error World :=
  match w.writeErr path with
  | some err => Except.error err
  | none =>
    Except.ok { w with read := fun p => if p = path then Except.ok dat else w.read p }

/-- The loop `for _, path := range files` of `main`: the final state, and the
error `log.Fatal` ended the process with (`none` when the loop ran to its
end). -/
def mainLoop (xml : Codec) : List String → World → World × Option Error
  | [], w => (w, none)
  | path :: rest, w =>
    match w.read path with
    | Except.error err => (w, some err)
    | Except.ok dat =>
      match modifyFile xml dat with
      | Except.error err =>
        mainLoop xml rest { w with stdout := w.stdout ++ [Output.Skipped path err] }
      | Except.ok dat2 =>
        match WriteFile w path dat2 with
        | Except.error err => (w, some err)
        | Except.ok w2 =>
          mainLoop xml rest { w2 with stdout := w2.stdout ++ [Output.Fixed path] }

/-- The content the specification gives a file after the run: the output of
`modifyFile` on its bytes when `modifyFile` succeeds, its bytes unchanged when
it fails. -/
def expectedContent (xml : Codec) (dat : Bytes) : Bytes :=
  match modifyFile xml dat with
  | Except.ok dat2 => dat2
  | Except.error _ => dat

/-- The line the specification has the run print for a file of content `dat`. -/
def expectedLine (xml : Codec) (path : String) (dat : Bytes) : Output :=
  match modifyFile xml dat with
  | Except.ok _ => Output.Fixed path
  | Except.error err => Output.Skipped path err

/-- The condition of the specification on a match of the glob: it is not a
directory and its extension is exactly `.svg`. -/
def selected (os : OS) (path : String) : Bool :=
  match os.Stat path with
  | Except.ok fileInfo => !fileInfo.IsDir && decide (Ext path = ".svg")
  | Except.error _ => false

/-! ## Sample environments -/

/-- A directory of six entries, of which `d.svg` is a directory. -/
def sampleOS : OS where
  Glob := fun pattern =>
    if pattern = "*" then Except.ok ["a.svg", "A.SVG", "b.png", "d.svg", "svg", "c.svg"]
    else Except.ok []
  Stat := fun path => Except.ok ⟨decide (path = "d.svg")⟩

/-- A codec that knows two inputs, a document with the viewBox `0 0 16 16`
and a document without viewBox, and writes the width of a document. -/
def sampleCodec : Codec where
  Unmarshal := fun dat =>
    if dat = [1] then Except.ok ⟨⟨"", "svg"⟩, "", "", "", "0 0 16 16", ⟨""⟩⟩
    else if dat = [2] then Except.ok ⟨⟨"", "svg"⟩, "", "", "", "", ⟨""⟩⟩
    else Except.error (Error.Other "EOF")
  Marshal := fun g => Except.ok (g.Width.data.map (fun c => UInt8.ofNat c.toNat))

/-- The bytes of three files. -/
def sampleBytes (path : String) : Bytes :=
  if path = "a.svg" then [1] else if path = "c.svg" then [2] else [0]

/-- A state in which every file can be read and written. -/
def sampleWorld : World where
  read := fun path => Except.ok (sampleBytes path)
  writeErr := fun _ => none
  stdout := []

/-! ## Whitespace-separated fields, as the specification words them -/

/-- A space, a tab or a newline. -/
def isSpace (c : Char) : Bool := decide (c = ' ') || decide (c = '\t') || decide (c = '\n')

/-- The fields of a character sequence between runs of whitespace; `cur` is
the field being read, reversed. -/
def fieldsChars : List Char → List Char → List (List Char)
  | [], cur => if cur = [] then [] else [cur.reverse]
  | c :: cs, cur =>
    if isSpace c then
      if cur = [] then fieldsChars cs [] else cur.reverse :: fieldsChars cs []
    else fieldsChars cs (c :: cur)

/-- The whitespace-separated fields of a string. -/
def whitespaceFields (s : String) : List String := (fieldsChars s.data []).map String.mk

/-! ## Decimal notation, as the specification words it -/

/-- The value the digit loops compute over `cs` from the accumulator `n`,
without any bound. -/
def valFrom (cs : List Char) (n : Nat) : Nat :=
  cs.foldl (fun m c => m * 10 + digitVal c) n

/-- A base-10 whole number: an optional sign, then one decimal digit or more,
and nothing else. -/
def isWholeChars : List Char → Bool
  | [] => false
  | c :: cs =>
    if c = '+' ∨ c = '-' then !cs.isEmpty && cs.all isDigit else (c :: cs).all isDigit

/-- The integer a base-10 whole number denotes. -/
def valueChars : List Char → Int
  | [] => 0
  | c :: cs =>
    if c = '-' then -(valFrom cs 0 : Int)
    else if c = '+' then (valFrom cs 0 : Int)
    else (valFrom (c :: cs) 0 : Int)

/-- The string is a base-10 whole number. -/
def isWholeNumber (s : String) : Bool := isWholeChars s.data

/-- The integer the string denotes, when it is a base-10 whole number. -/
def wholeNumberValue (s : String) : Int := valueChars s.data

/-- The integer fits a Go `int` of 64 bits. -/
def fitsInt (v : Int) : Prop := -(2 : Int) ^ 63 ≤ v ∧ v < (2 : Int) ^ 63

instance instDecidableFitsInt (v : Int) : Decidable (fitsInt v) := by
  unfold fitsInt
  infer_instance

/-! ## Lemmas on `strconv` -/

theorem isDigit_iff (c : Char) : isDigit c = true ↔ 48 ≤ c.toNat ∧ c.toNat ≤ 57 := by
  simp [isDigit]

theorem digitVal_le (c : Char) (h : isDigit c = true) : digitVal c ≤ 9 := by
  rw [isDigit_iff] at h
  simp only [digitVal, Char.reduceToNat]
  omega

theorem utf8Size_digit (c : Char) (h : isDigit c = true) : c.utf8Size = 1 := by
  rw [isDigit_iff] at h
  have h1 : c.val ≤ 0x7F := by
    rw [UInt32.le_def]
    show c.val.toNat ≤ 127
    have : c.val.toNat = c.toNat := rfl
    omega
  simp [Char.utf8Size, h1]

theorem len_digits (cs : List Char) (h : ∀ c ∈ cs, isDigit c = true) : len cs = cs.length := by
  induction cs with
  | nil => rfl
  | cons c cs ih =>
    have hc := utf8Size_digit c (h c (List.mem_cons_self _ _))
    have ih2 := ih (fun x hx => h x (List.mem_cons_of_mem _ hx))
    simp only [len, List.map_cons, List.sum_cons, List.length_cons] at *
    omega

theorem valFrom_ge (cs : List Char) (n : Nat) : n ≤ valFrom cs n := by
  induction cs generalizing n with
  | nil => simp [valFrom]
  | cons c cs ih =>
    have := ih (n * 10 + digitVal c)
    simp only [valFrom, List.foldl_cons] at *
    omega

theorem valFrom_lt (cs : List Char) (n : Nat) (h : ∀ c ∈ cs, isDigit c = true) :
    valFrom cs n < (n + 1) * 10 ^ cs.length := by
  induction cs generalizing n with
  | nil => simp [valFrom]
  | cons c cs ih =>
    have hc := digitVal_le c (h c (List.mem_cons_self _ _))
    have ih2 := ih (n * 10 + digitVal c) (fun x hx => h x (List.mem_cons_of_mem _ hx))
    simp only [valFrom, List.foldl_cons, List.length_cons] at *
    calc List.foldl (fun m c => m * 10 + digitVal c) (n * 10 + digitVal c) cs
        < (n * 10 + digitVal c + 1) * 10 ^ cs.length := ih2
      _ ≤ ((n + 1) * 10) * 10 ^ cs.length := Nat.mul_le_mul_right _ (by omega)
      _ = (n + 1) * 10 ^ (cs.length + 1) := by ring

theorem atoiFastLoop_ok (cs : List Char) (n : Nat) (h : ∀ c ∈ cs, isDigit c = true) :
    atoiFastLoop cs n = Except.ok (valFrom cs n) := by
  induction cs generalizing n with
  | nil => rfl
  | cons c cs ih =>
    have hc := h c (List.mem_cons_self _ _)
    simp only [atoiFastLoop, hc, if_true]
    exact ih _ (fun x hx => h x (List.mem_cons_of_mem _ hx))

theorem atoiFastLoop_inv (cs : List Char) (n v : Nat) (h : atoiFastLoop cs n = Except.ok v) :
    (∀ c ∈ cs, isDigit c = true) ∧ v = valFrom cs n := by
  induction cs generalizing n with
  | nil =>
    simp only [atoiFastLoop, Except.ok.injEq] at h
    simp [valFrom, h]
  | cons c cs ih =>
    by_cases hc : isDigit c = true
    · simp only [atoiFastLoop, hc, if_true] at h
      obtain ⟨h1, h2⟩ := ih _ h
      refine ⟨?_, ?_⟩
      · intro x hx
        rcases List.mem_cons.mp hx with rfl | hx
        · exact hc
        · exact h1 x hx
      · simpa [valFrom] using h2
    · simp [atoiFastLoop, hc] at h

theorem parseUintLoop_ok (cs : List Char) (n : Nat) (h : ∀ c ∈ cs, isDigit c = true)
    (hv : valFrom cs n ≤ maxUint64) : parseUintLoop cs n = Except.ok (valFrom cs n) := by
  induction cs generalizing n with
  | nil => rfl
  | cons c cs ih =>
    have hc := h c (List.mem_cons_self _ _)
    have hge := valFrom_ge cs (n * 10 + digitVal c)
    have hv2 : valFrom cs (n * 10 + digitVal c) ≤ maxUint64 := by
      simpa [valFrom] using hv
    have hd := digitVal_le c hc
    have hm : maxUint64 = 18446744073709551615 := by decide
    have h1 : ¬ (n ≥ maxUint64 / 10 + 1) := by omega
    have h2 : (n * 10 + digitVal c) % 2 ^ 64 = n * 10 + digitVal c :=
      Nat.mod_eq_of_lt (by omega)
    have h3 : ¬ (n * 10 + digitVal c < n * 10 ∨ n * 10 + digitVal c > maxUint64) := by omega
    simp only [parseUintLoop, hc, if_true, h1, if_false, h2, h3]
    have := ih _ (fun x hx => h x (List.mem_cons_of_mem _ hx)) hv2
    simpa [valFrom] using this

theorem parseUintLoop_inv (cs : List Char) (n v : Nat)
    (h : parseUintLoop cs n = Except.ok v) :
    (∀ c ∈ cs, isDigit c = true) ∧ v = valFrom cs n ∧ (n ≤ maxUint64 → v ≤ maxUint64) := by
  induction cs generalizing n with
  | nil =>
    simp only [parseUintLoop, Except.ok.injEq] at h
    simp [valFrom, h]
  | cons c cs ih =>
    by_cases hc : isDigit c = true
    · by_cases h1 : n ≥ maxUint64 / 10 + 1
      · simp [parseUintLoop, hc, h1] at h
      · by_cases h3 : (n * 10 + digitVal c) % 2 ^ 64 < n * 10 ∨
            (n * 10 + digitVal c) % 2 ^ 64 > maxUint64
        · simp only [parseUintLoop, hc, if_true, h1, if_false, h3, reduceCtorEq] at h
        · simp only [parseUintLoop, hc, if_true, h1, if_false, h3] at h
          have hm : maxUint64 = 18446744073709551615 := by decide
          have hd := digitVal_le c hc
          have h2 : (n * 10 + digitVal c) % 2 ^ 64 = n * 10 + digitVal c := by
            apply Nat.mod_eq_of_lt
            by_contra hcon
            apply h3
            left
            omega
          rw [h2] at h
          obtain ⟨i1, i2, i3⟩ := ih _ h
          refine ⟨?_, ?_, ?_⟩
          · intro x hx
            rcases List.mem_cons.mp hx with rfl | hx
            · exact hc
            · exact i1 x hx
          · simpa [valFrom] using i2
          · intro _
            apply i3
            rw [h2] at h3
            omega
    · simp [parseUintLoop, hc] at h

theorem ParseUint_ok_iff (body : List Char) (un : Nat) :
    ParseUint body = Except.ok un ↔
      body ≠ [] ∧ (∀ c ∈ body, isDigit c = true) ∧ un = valFrom body 0 ∧ un ≤ maxUint64 := by
  constructor
  · intro h
    by_cases hb : body = []
    · simp [ParseUint, hb] at h
    · simp only [ParseUint, hb, if_false] at h
      obtain ⟨h1, h2, h3⟩ := parseUintLoop_inv body 0 un h
      exact ⟨hb, h1, h2, h3 (Nat.zero_le _)⟩
  · rintro ⟨hb, h1, h2, h3⟩
    simp only [ParseUint, hb, if_false]
    rw [h2] at h3 ⊢
    exact parseUintLoop_ok body 0 h1 h3

theorem len_eq_zero (cs : List Char) (h : len cs < 1) : cs = [] := by
  cases cs with
  | nil => rfl
  | cons c cs =>
    have := Char.utf8Size_pos c
    simp only [len, List.map_cons, List.sum_cons] at h
    omega

theorem len_tail_le (c : Char) (cs : List Char) : len cs ≤ len (c :: cs) := by
  simp [len]

theorem all_digits_iff (cs : List Char) :
    cs.all isDigit = true ↔ ∀ c ∈ cs, isDigit c = true := by
  simp [List.all_eq_true]

theorem isDigit_ne_sign (c : Char) (h : isDigit c = true) : c ≠ '+' ∧ c ≠ '-' := by
  rw [isDigit_iff] at h
  constructor <;> (rintro rfl; simp at h)

theorem ParseInt_ok_iff (s : List Char) (v : Int) :
    ParseInt s = Except.ok v ↔ isWholeChars s = true ∧ valueChars s = v ∧ fitsInt v := by
  have hm : maxUint64 = 18446744073709551615 := by decide
  cases s with
  | nil => simp [ParseInt, isWholeChars]
  | cons c cs =>
    by_cases hneg : c = '-'
    · subst hneg
      simp only [ParseInt, isWholeChars, valueChars, fitsInt, intSize, true_or, or_true, if_true,
        decide_True, not_true_eq_false, false_and, if_false, true_and, Bool.and_eq_true,
        Bool.not_eq_true', List.isEmpty_eq_false_iff_exists_mem, all_digits_iff]
      cases hp : ParseUint cs with
      | error e =>
        simp only [reduceCtorEq, false_iff]
        rintro ⟨⟨⟨x, hx⟩, hd⟩, hv, hr1, hr2⟩
        have : ParseUint cs = Except.ok (valFrom cs 0) := by
          rw [ParseUint_ok_iff]
          refine ⟨List.ne_nil_of_mem hx, hd, rfl, ?_⟩
          omega
        rw [this] at hp
        cases hp
      | ok un =>
        obtain ⟨hb, hd, hu, hmax⟩ := (ParseUint_ok_iff cs un).mp hp
        obtain ⟨x, hx⟩ := List.exists_mem_of_ne_nil cs hb
        by_cases hc : un > 2 ^ (64 - 1)
        · simp only [hc, if_true, reduceCtorEq, false_iff]
          rintro ⟨_, hv, hr1, hr2⟩
          omega
        · simp only [hc, if_false, Except.ok.injEq]
          constructor
          · intro h
            refine ⟨⟨⟨x, hx⟩, hd⟩, ?_, ?_, ?_⟩ <;> omega
          · rintro ⟨_, hv, _⟩
            omega
    · by_cases hpos : c = '+'
      · subst hpos
        simp only [ParseInt, isWholeChars, valueChars, fitsInt, intSize, true_or, or_true, if_true,
          hneg, decide_False, not_false_eq_true, true_and, false_and, if_false,
          Bool.and_eq_true, Bool.not_eq_true', List.isEmpty_eq_false_iff_exists_mem,
          all_digits_iff, Bool.false_eq_true]
        cases hp : ParseUint cs with
        | error e =>
          simp only [reduceCtorEq, false_iff]
          rintro ⟨⟨⟨x, hx⟩, hd⟩, hv, hr1, hr2⟩
          have : ParseUint cs = Except.ok (valFrom cs 0) := by
            rw [ParseUint_ok_iff]
            refine ⟨List.ne_nil_of_mem hx, hd, rfl, ?_⟩
            omega
          rw [this] at hp
          cases hp
        | ok un =>
          obtain ⟨hb, hd, hu, hmax⟩ := (ParseUint_ok_iff cs un).mp hp
          obtain ⟨x, hx⟩ := List.exists_mem_of_ne_nil cs hb
          by_cases hc : un ≥ 2 ^ (64 - 1)
          · simp only [hc, if_true, reduceCtorEq, false_iff]
            rintro ⟨_, hv, hr1, hr2⟩
            omega
          · simp only [hc, if_false, Except.ok.injEq]
            constructor
            · intro h
              refine ⟨⟨⟨x, hx⟩, hd⟩, ?_, ?_, ?_⟩ <;> omega
            · rintro ⟨_, hv, _⟩
              omega
      · simp only [ParseInt, isWholeChars, valueChars, fitsInt, intSize, hneg, hpos, or_self,
          if_false, decide_False, not_false_eq_true, true_and, false_and,
          all_digits_iff, Bool.false_eq_true]
        cases hp : ParseUint (c :: cs) with
        | error e =>
          simp only [reduceCtorEq, false_iff]
          rintro ⟨hd, hv, hr1, hr2⟩
          have : ParseUint (c :: cs) = Except.ok (valFrom (c :: cs) 0) := by
            rw [ParseUint_ok_iff]
            refine ⟨List.cons_ne_nil _ _, hd, rfl, ?_⟩
            omega
          rw [this] at hp
          cases hp
        | ok un =>
          obtain ⟨hb, hd, hu, hmax⟩ := (ParseUint_ok_iff (c :: cs) un).mp hp
          by_cases hc : un ≥ 2 ^ (64 - 1)
          · simp only [hc, if_true, reduceCtorEq, false_iff]
            rintro ⟨_, hv, hr1, hr2⟩
            omega
          · simp only [hc, if_false, Except.ok.injEq]
            constructor
            · intro h
              refine ⟨hd, ?_, ?_, ?_⟩ <;> omega
            · rintro ⟨_, hv, _⟩
              omega

theorem valFrom_fits (cs : List Char) (hd : ∀ c ∈ cs, isDigit c = true) (hl : len cs < 19) :
    valFrom cs 0 < 10 ^ 18 := by
  have h1 := valFrom_lt cs 0 hd
  have h2 : cs.length ≤ 18 := by
    rw [len_digits cs hd] at hl
    omega
  have h3 : 10 ^ cs.length ≤ 10 ^ 18 := Nat.pow_le_pow_right (by decide) h2
  omega

theorem atoiFast_ok_iff (s : List Char) (v : Int) (hl : len s < 19) :
    atoiFast s = Except.ok v ↔ isWholeChars s = true ∧ valueChars s = v ∧ fitsInt v := by
  cases s with
  | nil => simp [atoiFast, isWholeChars]
  | cons c cs =>
    have hcs : len cs < 19 := lt_of_le_of_lt (len_tail_le c cs) hl
    by_cases hsign : c = '-' ∨ c = '+'
    · have hsign2 : c = '+' ∨ c = '-' := hsign.symm
      simp only [atoiFast, isWholeChars, hsign, hsign2, if_true, Bool.and_eq_true,
        Bool.not_eq_true', List.isEmpty_eq_false_iff_exists_mem, all_digits_iff]
      by_cases hb : len cs < 1
      · have := len_eq_zero cs hb
        subst this
        simp [len]
      · simp only [hb, if_false]
        cases hp : atoiFastLoop cs 0 with
        | error e =>
          simp only [reduceCtorEq, false_iff]
          rintro ⟨⟨_, hd⟩, _⟩
          rw [atoiFastLoop_ok cs 0 hd] at hp
          cases hp
        | ok n =>
          obtain ⟨hd, hn⟩ := atoiFastLoop_inv cs 0 n hp
          have hlt := valFrom_fits cs hd hcs
          have hne : ∃ x, x ∈ cs := by
            cases cs with
            | nil => exact absurd (by decide : len [] < 1) hb
            | cons x xs => exact ⟨x, List.mem_cons_self _ _⟩
          by_cases hneg : c = '-'
          · simp only [hneg, if_true, Except.ok.injEq, valueChars, fitsInt]
            constructor
            · intro h
              refine ⟨⟨hne, hd⟩, ?_, ?_, ?_⟩ <;> omega
            · rintro ⟨_, hv, _⟩
              omega
          · have hpos : c = '+' := hsign.resolve_left hneg
            subst hpos
            have hpm : ¬ ('+' = '-') := by decide
            simp only [hpm, if_false, Except.ok.injEq, valueChars, fitsInt, if_true]
            constructor
            · intro h
              refine ⟨⟨hne, hd⟩, ?_, ?_, ?_⟩ <;> omega
            · rintro ⟨_, hv, _⟩
              omega
    · have hsign2 : ¬ (c = '+' ∨ c = '-') := fun h => hsign h.symm
      have hneg : ¬ c = '-' := fun h => hsign (Or.inl h)
      have hpos : ¬ c = '+' := fun h => hsign (Or.inr h)
      have hb : ¬ len (c :: cs) < 1 := by
        intro h
        have := len_eq_zero _ h
        cases this
      simp only [atoiFast, isWholeChars, valueChars, fitsInt, hneg, hpos, or_self, hb,
        if_false, all_digits_iff]
      cases hp : atoiFastLoop (c :: cs) 0 with
      | error e =>
        simp only [reduceCtorEq, false_iff]
        rintro ⟨hd, _⟩
        rw [atoiFastLoop_ok _ 0 hd] at hp
        cases hp
      | ok n =>
        obtain ⟨hd, hn⟩ := atoiFastLoop_inv _ 0 n hp
        have hlt := valFrom_fits _ hd hl
        simp only [Except.ok.injEq]
        constructor
        · intro h
          refine ⟨hd, ?_, ?_, ?_⟩ <;> omega
        · rintro ⟨_, hv, _⟩
          omega

/-- The function `Atoi` succeeds exactly on the base-10 whole numbers that fit
a 64-bit `int`, and returns the integer they denote. -/
theorem Atoi_ok_iff (s : String) (v : Int) :
    Atoi s = Except.ok v ↔ isWholeNumber s = true ∧ wholeNumberValue s = v ∧ fitsInt v := by
  unfold Atoi isWholeNumber wholeNumberValue
  by_cases hl : 0 < len s.data ∧ len s.data < 19
  · rw [if_pos hl, ← atoiFast_ok_iff s.data v hl.2]
    cases atoiFast s.data <;> simp
  · rw [if_neg hl, ← ParseInt_ok_iff s.data v]
    cases ParseInt s.data <;> simp

/-- An error of `Atoi` is a `*NumError` of function `Atoi` on its argument. -/
theorem Atoi_error (s : String) (e : Error) (h : Atoi s = Except.error e) :
    ∃ k, e = Error.NumError "Atoi" s k := by
  unfold Atoi at h
  revert h
  generalize (if 0 < len s.data ∧ len s.data < 19 then atoiFast s.data else ParseInt s.data) = r
  cases r with
  | error k =>
    intro h
    simp only [Except.error.injEq] at h
    exact ⟨k, h.symm⟩
  | ok n =>
    intro h
    simp at h

theorem digitChar_spec (k : Nat) (h : k < 10) :
    isDigit (Char.ofNat ('0'.toNat + k)) = true ∧ digitVal (Char.ofNat ('0'.toNat + k)) = k := by
  interval_cases k <;> decide

theorem valFrom_append (xs ys : List Char) (n : Nat) :
    valFrom (xs ++ ys) n = valFrom ys (valFrom xs n) := by
  simp [valFrom, List.foldl_append]

theorem formatDigits_spec (fuel n : Nat) (acc : List Char) (h : n < fuel) :
    ∃ ds, formatDigits fuel n acc = ds ++ acc ∧ ds ≠ [] ∧
      (∀ c ∈ ds, isDigit c = true) ∧ valFrom ds 0 = n := by
  induction fuel generalizing n acc with
  | zero => omega
  | succ fuel ih =>
    by_cases hn : n < 10
    · obtain ⟨h1, h2⟩ := digitChar_spec n hn
      refine ⟨[Char.ofNat ('0'.toNat + n)], ?_, by simp, ?_, ?_⟩
      · simp [formatDigits, hn]
      · intro c hc
        rw [List.mem_singleton] at hc
        rw [hc]
        exact h1
      · simp only [valFrom, List.foldl_cons, List.foldl_nil, h2]
        omega
    · obtain ⟨h1, h2⟩ := digitChar_spec (n % 10) (Nat.mod_lt _ (by decide))
      obtain ⟨ds, e1, e2, e3, e4⟩ :=
        ih (n / 10) (Char.ofNat ('0'.toNat + n % 10) :: acc) (by omega)
      refine ⟨ds ++ [Char.ofNat ('0'.toNat + n % 10)], ?_, by simp, ?_, ?_⟩
      · simp only [formatDigits, hn, if_false, e1, List.append_assoc, List.singleton_append]
      · intro c hc
        rcases List.mem_append.mp hc with hc | hc
        · exact e3 c hc
        · rw [List.mem_singleton] at hc
          rw [hc]
          exact h1
      · rw [valFrom_append, e4]
        simp only [valFrom, List.foldl_cons, List.foldl_nil, h2]
        omega

/-- The string `Itoa v` is a base-10 whole number that denotes `v`. -/
theorem Itoa_spec (v : Int) :
    isWholeNumber (Itoa v) = true ∧ wholeNumberValue (Itoa v) = v := by
  obtain ⟨ds, e1, e2, e3, e4⟩ := formatDigits_spec (v.natAbs + 1) v.natAbs [] (by omega)
  rw [List.append_nil] at e1
  by_cases hv : v < 0
  · have hI : Itoa v = String.mk ('-' :: ds) := by simp [Itoa, hv, e1]
    rw [hI]
    simp only [isWholeNumber, wholeNumberValue, isWholeChars, valueChars, or_true, if_true,
      Bool.and_eq_true, Bool.not_eq_true', all_digits_iff, e4]
    refine ⟨⟨?_, e3⟩, ?_⟩
    · cases ds with
      | nil => exact absurd rfl e2
      | cons x xs => rfl
    · omega
  · have hI : Itoa v = String.mk ds := by simp [Itoa, hv, e1]
    rw [hI]
    cases ds with
    | nil => exact absurd rfl e2
    | cons x xs =>
      obtain ⟨s1, s2⟩ := isDigit_ne_sign x (e3 x (List.mem_cons_self _ _))
      simp only [isWholeNumber, wholeNumberValue, isWholeChars, valueChars, s1, s2, or_self,
        if_false, all_digits_iff, e4]
      refine ⟨e3, ?_⟩
      omega

/-- Reading back what `Itoa` wrote gives the integer. -/
theorem Atoi_Itoa (v : Int) (h : fitsInt v) : Atoi (Itoa v) = Except.ok v := by
  rw [Atoi_ok_iff]
  exact ⟨(Itoa_spec v).1, (Itoa_spec v).2, h⟩

/-! ## The dimension deriver -/

theorem Split_empty (sep : Char) : Split "" sep = [""] := rfl

/-- The body of `parseViewBox` once the split gave four fields. -/
theorem parseViewBox_of_split (g : SVG) (a b c d : String)
    (hs : Split g.ViewBox ' ' = [a, b, c, d]) :
    parseViewBox g =
      match Atoi c with
      | Except.error err => Except.error err
      | Except.ok width =>
        match Atoi d with
        | Except.error err => Except.error err
        | Except.ok height => Except.ok (width, height) := by
  have hne : g.ViewBox ≠ "" := by
    intro h
    rw [h, Split_empty] at hs
    simp at hs
  simp [parseViewBox, hne, hs]

/-- C1: when the viewBox string splits on the space character into exactly
four fields of which the third and the fourth parse as the integers `w` and
`h`, `parseViewBox` succeeds and returns `(w, h)`, in that order, whatever the
first two fields are; `w` and `h` are the integers the third and the fourth
field denote in base 10. -/
theorem parseViewBox_third_fourth (g : SVG) (a b c d : String) (w h : Int)
    (hs : Split g.ViewBox ' ' = [a, b, c, d])
    (hw : Atoi c = Except.ok w) (hh : Atoi d = Except.ok h) :
    parseViewBox g = Except.ok (w, h) ∧
    wholeNumberValue c = w ∧ wholeNumberValue d = h := by
  rw [parseViewBox_of_split g a b c d hs, hw, hh]
  exact ⟨rfl, ((Atoi_ok_iff c w).mp hw).2.1, ((Atoi_ok_iff d h).mp hh).2.1⟩

/-- Witness of C1: the viewBox strings `0 0 24 24` and `0 0 100 50` of the
specification, and one whose first two fields are not integers. -/
theorem parseViewBox_third_fourth_witness :
    parseViewBox ⟨⟨"", "svg"⟩, "", "", "", "0 0 24 24", ⟨""⟩⟩ = Except.ok (24, 24) ∧
    parseViewBox ⟨⟨"", "svg"⟩, "ns", "1em", "", "0 0 100 50", ⟨"M0 0"⟩⟩ = Except.ok (100, 50) ∧
    parseViewBox ⟨⟨"", "svg"⟩, "", "", "", "x -1.5 100 50", ⟨""⟩⟩ = Except.ok (100, 50) :=
  ⟨(parseViewBox_third_fourth _ "0" "0" "24" "24" 24 24 (by decide) (by decide) (by decide)).1,
   (parseViewBox_third_fourth _ "0" "0" "100" "50" 100 50 (by decide) (by decide)
      (by decide)).1,
   (parseViewBox_third_fourth _ "x" "-1.5" "100" "50" 100 50 (by decide) (by decide)
      (by decide)).1⟩

/-- C2: when the viewBox string is empty, whatever the other fields hold,
`parseViewBox` fails with the error `No viewBox defined`, and `fixSVG` fails
with that same error (and leaves the document as it was). -/
theorem parseViewBox_empty (g : SVG) (h : g.ViewBox = "") :
    parseViewBox g = Except.error (Error.Errorf "No viewBox defined") ∧
    fixSVG g = (g, some (Error.Errorf "No viewBox defined")) := by
  have h1 : parseViewBox g = Except.error (Error.Errorf "No viewBox defined") := by
    simp [parseViewBox, h]
  exact ⟨h1, by simp [fixSVG, h1]⟩

/-- Witness of C2: a document with an empty viewBox and other fields set. -/
theorem parseViewBox_empty_witness :
    (⟨⟨"", "svg"⟩, "http://www.w3.org/2000/svg", "10", "20", "", ⟨"M0 0"⟩⟩ : SVG).ViewBox = "" ∧
    parseViewBox ⟨⟨"", "svg"⟩, "http://www.w3.org/2000/svg", "10", "20", "", ⟨"M0 0"⟩⟩ =
      Except.error (Error.Errorf "No viewBox defined") ∧
    fixSVG ⟨⟨"", "svg"⟩, "http://www.w3.org/2000/svg", "10", "20", "", ⟨"M0 0"⟩⟩ =
      (⟨⟨"", "svg"⟩, "http://www.w3.org/2000/svg", "10", "20", "", ⟨"M0 0"⟩⟩,
        some (Error.Errorf "No viewBox defined")) :=
  ⟨rfl, parseViewBox_empty _ rfl⟩

/-- With four fields the result of `parseViewBox` is a pair or a
`*NumError` of `Atoi` on the third or the fourth field. -/
theorem parseViewBox_four (g : SVG) (a b c d : String)
    (hs : Split g.ViewBox ' ' = [a, b, c, d]) :
    (∃ w h, Atoi c = Except.ok w ∧ Atoi d = Except.ok h ∧
      parseViewBox g = Except.ok (w, h)) ∨
    (∃ k, parseViewBox g = Except.error (Error.NumError "Atoi" c k)) ∨
    (∃ k, parseViewBox g = Except.error (Error.NumError "Atoi" d k)) := by
  rw [parseViewBox_of_split g a b c d hs]
  cases hc : Atoi c with
  | error e =>
    obtain ⟨k, hk⟩ := Atoi_error c e hc
    exact Or.inr (Or.inl ⟨k, by rw [hk]⟩)
  | ok w =>
    cases hd : Atoi d with
    | error e =>
      obtain ⟨k, hk⟩ := Atoi_error d e hd
      exact Or.inr (Or.inr ⟨k, by rw [hk]⟩)
    | ok h => exact Or.inl ⟨w, h, rfl, rfl, rfl⟩

theorem list_length_four {α : Type} (l : List α) (h : l.length = 4) :
    ∃ a b c d, l = [a, b, c, d] := by
  match l, h with
  | [a, b, c, d], _ => exact ⟨a, b, c, d, rfl⟩

/-- C3: for a non-empty viewBox string, `parseViewBox` fails with the error
`viewBox not probably defined` if and only if splitting the string on the
space character does not give exactly four fields. -/
theorem parseViewBox_malformed_iff (g : SVG) (hne : g.ViewBox ≠ "") :
    parseViewBox g = Except.error (Error.Errorf "viewBox not probably defined") ↔
      (Split g.ViewBox ' ').length ≠ 4 := by
  constructor
  · intro h hlen
    obtain ⟨a, b, c, d, hs⟩ := list_length_four _ hlen
    rcases parseViewBox_four g a b c d hs with ⟨w, h2, _, _, e⟩ | ⟨k, e⟩ | ⟨k, e⟩ <;>
      · rw [e] at h
        cases h
  · intro hlen
    simp [parseViewBox, hne, hlen]

/-- Witness of C3: the viewBox string `0 0 24` of three fields. -/
theorem parseViewBox_malformed_iff_witness :
    (⟨⟨"", "svg"⟩, "", "", "", "0 0 24", ⟨""⟩⟩ : SVG).ViewBox ≠ "" ∧
    (Split "0 0 24" ' ').length = 3 ∧
    parseViewBox ⟨⟨"", "svg"⟩, "", "", "", "0 0 24", ⟨""⟩⟩ =
      Except.error (Error.Errorf "viewBox not probably defined") :=
  ⟨by decide, by decide,
   (parseViewBox_malformed_iff ⟨⟨"", "svg"⟩, "", "", "", "0 0 24", ⟨""⟩⟩ (by decide)).mpr
     (by decide)⟩

/-- C4: when the viewBox string splits on the space character into exactly
four fields and the third or the fourth is not a base-10 whole number (an
optional sign, then decimal digits only), `parseViewBox` fails with a
`*strconv.NumError` of `Atoi` on that third or fourth field. -/
theorem parseViewBox_not_whole (g : SVG) (a b c d : String)
    (hs : Split g.ViewBox ' ' = [a, b, c, d])
    (hn : isWholeNumber c = false ∨ isWholeNumber d = false) :
    ∃ num k, (num = c ∨ num = d) ∧
      parseViewBox g = Except.error (Error.NumError "Atoi" num k) := by
  rcases parseViewBox_four g a b c d hs with ⟨w, h, hw, hh, _⟩ | ⟨k, e⟩ | ⟨k, e⟩
  · have h1 := ((Atoi_ok_iff c w).mp hw).1
    have h2 := ((Atoi_ok_iff d h).mp hh).1
    rcases hn with hn | hn
    · rw [h1] at hn
      cases hn
    · rw [h2] at hn
      cases hn
  · exact ⟨c, k, Or.inl rfl, e⟩
  · exact ⟨d, k, Or.inr rfl, e⟩

/-- Witness of C4: the fractional field of `0 0 24.5 24` and the words of
`0 0 twenty four` are rejected. -/
theorem parseViewBox_not_whole_witness :
    (∃ num k, (num = "24.5" ∨ num = "24") ∧
      parseViewBox ⟨⟨"", "svg"⟩, "", "", "", "0 0 24.5 24", ⟨""⟩⟩ =
        Except.error (Error.NumError "Atoi" num k)) ∧
    (∃ num k, (num = "twenty" ∨ num = "four") ∧
      parseViewBox ⟨⟨"", "svg"⟩, "", "", "", "0 0 twenty four", ⟨""⟩⟩ =
        Except.error (Error.NumError "Atoi" num k)) :=
  ⟨parseViewBox_not_whole _ "0" "0" "24.5" "24" (by decide) (Or.inl (by decide)),
   parseViewBox_not_whole _ "0" "0" "twenty" "four" (by decide) (Or.inl (by decide))⟩

/-- A success of `parseViewBox` comes from four fields of which the third
and the fourth parse. -/
theorem parseViewBox_ok_inv (g : SVG) (w h : Int) (hp : parseViewBox g = Except.ok (w, h)) :
    ∃ a b c d, Split g.ViewBox ' ' = [a, b, c, d] ∧
      Atoi c = Except.ok w ∧ Atoi d = Except.ok h := by
  by_cases hne : g.ViewBox = ""
  · simp [parseViewBox, hne] at hp
  · by_cases hlen : (Split g.ViewBox ' ').length = 4
    · obtain ⟨a, b, c, d, hs⟩ := list_length_four _ hlen
      refine ⟨a, b, c, d, hs, ?_⟩
      rcases parseViewBox_four g a b c d hs with ⟨w2, h2, hw, hh, e⟩ | ⟨k, e⟩ | ⟨k, e⟩
      · rw [e] at hp
        simp only [Except.ok.injEq, Prod.mk.injEq] at hp
        rw [← hp.1, ← hp.2]
        exact ⟨hw, hh⟩
      · rw [e] at hp
        cases hp
      · rw [e] at hp
        cases hp
    · simp [parseViewBox, hne, hlen] at hp

/-- C5: when `parseViewBox` succeeds with `(w, h)`, `fixSVG` succeeds and
leaves `Width` equal to `Itoa w` and `Height` equal to `Itoa h`, whatever they
held before; these strings are the decimal notation alone (no unit suffix):
`Atoi` reads `w` and `h` back from them. -/
theorem fixSVG_sets_width_height (g : SVG) (w h : Int)
    (hp : parseViewBox g = Except.ok (w, h)) :
    (fixSVG g).2 = none ∧
    (fixSVG g).1.Width = Itoa w ∧ (fixSVG g).1.Height = Itoa h ∧
    Atoi (fixSVG g).1.Width = Except.ok w ∧ Atoi (fixSVG g).1.Height = Except.ok h := by
  obtain ⟨a, b, c, d, _, hw, hh⟩ := parseViewBox_ok_inv g w h hp
  have fw := ((Atoi_ok_iff c w).mp hw).2.2
  have fh := ((Atoi_ok_iff d h).mp hh).2.2
  have e : fixSVG g = ({ g with Width := Itoa w, Height := Itoa h }, none) := by
    simp [fixSVG, hp]
  rw [e]
  exact ⟨rfl, rfl, rfl, Atoi_Itoa w fw, Atoi_Itoa h fh⟩

/-- Witness of C5: with the viewBox `0 0 24 24` both attributes read `24`,
whatever they held before. -/
theorem fixSVG_sets_width_height_witness :
    (fixSVG ⟨⟨"", "svg"⟩, "", "1em", "2px", "0 0 24 24", ⟨""⟩⟩).2 = none ∧
    (fixSVG ⟨⟨"", "svg"⟩, "", "1em", "2px", "0 0 24 24", ⟨""⟩⟩).1.Width = "24" ∧
    (fixSVG ⟨⟨"", "svg"⟩, "", "1em", "2px", "0 0 24 24", ⟨""⟩⟩).1.Height = "24" :=
  have h := fixSVG_sets_width_height ⟨⟨"", "svg"⟩, "", "1em", "2px", "0 0 24 24", ⟨""⟩⟩ 24 24
    (by decide)
  ⟨h.1, h.2.1.trans (by decide), h.2.2.1.trans (by decide)⟩

/-- C6: `fixSVG` leaves the namespace, the viewBox string, the path data and
the element name exactly as they were, whether it succeeds or fails: it
changes `Width` and `Height` at most, and nothing at all when it fails. -/
theorem fixSVG_frame (g : SVG) :
    (fixSVG g).1.XMLns = g.XMLns ∧ (fixSVG g).1.ViewBox = g.ViewBox ∧
    (fixSVG g).1.Path.D = g.Path.D ∧ (fixSVG g).1.XMLName = g.XMLName ∧
    (fixSVG g).1 = { g with Width := (fixSVG g).1.Width, Height := (fixSVG g).1.Height } ∧
    ((fixSVG g).2 = none ∨ (fixSVG g).1 = g) := by
  unfold fixSVG
  cases parseViewBox g with
  | error e => simp
  | ok p => simp

/-! ## The orchestrator -/

/-- C7: when the loop of `main` runs over distinct paths that can all be read
(`orig` gives their bytes) and, where `modifyFile` succeeds, written, it runs
to its end; each of these files then holds the output of `modifyFile` on its
original bytes when `modifyFile` succeeds and its original bytes when it
fails; the other files are as they were; and one line is printed for each
path, in order, so that a failing file does not stop the files after it. -/
theorem mainLoop_final_contents (xml : Codec) (orig : String → Bytes) (files : List String) (w : World)
    (hnd : files.Nodup)
    (hr : ∀ p ∈ files, w.read p = Except.ok (orig p))
    (hw : ∀ p ∈ files, ∀ dat2, modifyFile xml (orig p) = Except.ok dat2 →
      w.writeErr p = none) :
    (mainLoop xml files w).2 = none ∧
    (∀ p ∈ files,
      (mainLoop xml files w).1.read p = Except.ok (expectedContent xml (orig p))) ∧
    (∀ p, p ∉ files → (mainLoop xml files w).1.read p = w.read p) ∧
    (mainLoop xml files w).1.writeErr = w.writeErr ∧
    (mainLoop xml files w).1.stdout =
      w.stdout ++ files.map (fun p => expectedLine xml p (orig p)) := by
  induction files generalizing w with
  | nil => simp [mainLoop]
  | cons path rest ih =>
    have hpath : path ∉ rest := (List.nodup_cons.mp hnd).1
    have hrest : rest.Nodup := (List.nodup_cons.mp hnd).2
    have hread := hr path (List.mem_cons_self _ _)
    cases hm : modifyFile xml (orig path) with
    | error err =>
      have e : mainLoop xml (path :: rest) w =
          mainLoop xml rest { w with stdout := w.stdout ++ [Output.Skipped path err] } := by
        simp [mainLoop, hread, hm]
      obtain ⟨i1, i2, i3, i4, i5⟩ :=
        ih { w with stdout := w.stdout ++ [Output.Skipped path err] } hrest
          (fun p hp => hr p (List.mem_cons_of_mem _ hp))
          (fun p hp dat2 h => hw p (List.mem_cons_of_mem _ hp) dat2 h)
      rw [e]
      refine ⟨i1, ?_, ?_, i4, ?_⟩
      · intro p hp
        rcases List.mem_cons.mp hp with rfl | hp
        · rw [i3 p hpath]
          simp [expectedContent, hm, hread]
        · exact i2 p hp
      · intro p hp
        exact i3 p (fun h => hp (List.mem_cons_of_mem _ h))
      · rw [i5]
        simp [expectedLine, hm]
    | ok dat2 =>
      have hwr := hw path (List.mem_cons_self _ _) dat2 hm
      have e : mainLoop xml (path :: rest) w =
          mainLoop xml rest
            { read := fun p => if p = path then Except.ok dat2 else w.read p,
              writeErr := w.writeErr,
              stdout := w.stdout ++ [Output.Fixed path] } := by
        simp [mainLoop, hread, hm, WriteFile, hwr]
      obtain ⟨i1, i2, i3, i4, i5⟩ :=
        ih { read := fun p => if p = path then Except.ok dat2 else w.read p,
             writeErr := w.writeErr,
             stdout := w.stdout ++ [Output.Fixed path] } hrest
          (fun p hp => by
            have hne : p ≠ path := fun h => hpath (h ▸ hp)
            simp only [hne, if_false]
            exact hr p (List.mem_cons_of_mem _ hp))
          (fun p hp dat2 h => hw p (List.mem_cons_of_mem _ hp) dat2 h)
      rw [e]
      refine ⟨i1, ?_, ?_, i4, ?_⟩
      · intro p hp
        rcases List.mem_cons.mp hp with rfl | hp
        · rw [i3 p hpath]
          simp [expectedContent, hm]
        · exact i2 p hp
      · intro p hp
        rw [i3 p (fun h => hp (List.mem_cons_of_mem _ h))]
        have hne : p ≠ path := fun h => hp (h ▸ List.mem_cons_self _ _)
        simp [hne]
      · rw [i5]
        simp [expectedLine, hm]

/-- Witness of C7: `c.svg` has no viewBox and is skipped, `a.svg` after it is
patched, `b.svg` cannot be decoded and is skipped. -/
theorem mainLoop_final_contents_witness :
    (mainLoop sampleCodec ["c.svg", "a.svg", "b.svg"] sampleWorld).2 = none ∧
    (mainLoop sampleCodec ["c.svg", "a.svg", "b.svg"] sampleWorld).1.read "c.svg" =
      Except.ok [2] ∧
    (mainLoop sampleCodec ["c.svg", "a.svg", "b.svg"] sampleWorld).1.read "a.svg" =
      Except.ok [49, 54] ∧
    (mainLoop sampleCodec ["c.svg", "a.svg", "b.svg"] sampleWorld).1.read "b.svg" =
      Except.ok [0] ∧
    (mainLoop sampleCodec ["c.svg", "a.svg", "b.svg"] sampleWorld).1.stdout =
      [Output.Skipped "c.svg" (Error.Errorf "No viewBox defined"), Output.Fixed "a.svg",
        Output.Skipped "b.svg" (Error.Other "EOF")] :=
  have h := mainLoop_final_contents sampleCodec sampleBytes ["c.svg", "a.svg", "b.svg"]
    sampleWorld (by decide) (fun _ _ => rfl) (fun _ _ _ _ => rfl)
  ⟨h.1,
   (h.2.1 "c.svg" (by decide)).trans (by decide),
   (h.2.1 "a.svg" (by decide)).trans (by decide),
   (h.2.1 "b.svg" (by decide)).trans (by decide),
   h.2.2.2.2.trans (by decide)⟩

/-! ## The file selector -/

theorem identifyLoop_filter (os : OS) (files1 files2 : List String)
    (hst : ∀ p ∈ files1, ∃ fileInfo, os.Stat p = Except.ok fileInfo) :
    identifyLoop os files1 files2 = Except.ok (files2 ++ files1.filter (selected os)) := by
  induction files1 generalizing files2 with
  | nil => simp [identifyLoop]
  | cons path rest ih =>
    obtain ⟨fileInfo, hf⟩ := hst path (List.mem_cons_self _ _)
    have hrest : ∀ p ∈ rest, ∃ fileInfo, os.Stat p = Except.ok fileInfo :=
      fun p hp => hst p (List.mem_cons_of_mem _ hp)
    by_cases hd : fileInfo.IsDir = true
    · have hsel : selected os path = false := by simp [selected, hf, hd]
      simp only [identifyLoop, hf, hd, if_true, List.filter_cons, hsel, Bool.false_eq_true,
        if_false]
      exact ih files2 hrest
    · by_cases he : Ext path = ".svg"
      · have hsel : selected os path = true := by simp [selected, hf, hd, he]
        simp only [identifyLoop, hf, hd, he, ne_eq, not_true_eq_false, if_false,
          List.filter_cons, hsel, if_true, Bool.false_eq_true]
        rw [ih (files2 ++ [path]) hrest]
        simp
      · have hsel : selected os path = false := by simp [selected, hf, he]
        simp only [identifyLoop, hf, hd, he, ne_eq, not_false_eq_true, if_true, if_false,
          List.filter_cons, hsel, Bool.false_eq_true]
        exact ih files2 hrest

/-- C8: when the glob succeeds with the matches `files1` and `os.Stat`
succeeds on each of them, `identifyFiles` returns exactly the matches that
are not directories and whose extension is exactly `.svg`, in the order of
the glob; when no match qualifies it returns the empty list and no error. -/
theorem identifyFiles_filter (os : OS) (pattern : String) (files1 : List String)
    (hg : os.Glob pattern = Except.ok files1)
    (hst : ∀ p ∈ files1, ∃ fileInfo, os.Stat p = Except.ok fileInfo) :
    identifyFiles os pattern = Except.ok (files1.filter (selected os)) ∧
    ((∀ p ∈ files1, selected os p = false) → identifyFiles os pattern = Except.ok []) := by
  have h : identifyFiles os pattern = Except.ok (files1.filter (selected os)) := by
    simp [identifyFiles, hg, identifyLoop_filter os files1 [] hst]
  refine ⟨h, fun hnone => ?_⟩
  rw [h, List.filter_eq_nil_iff.mpr]
  intro p hp
  simp [hnone p hp]

/-- Witness of C8: of `a.svg`, `A.SVG`, `b.png`, the directory `d.svg`, `svg`
and `c.svg`, the selector keeps `a.svg` and `c.svg`; it returns the empty list
when the glob matches nothing. -/
theorem identifyFiles_filter_witness :
    identifyFiles sampleOS "*" = Except.ok ["a.svg", "c.svg"] ∧
    Ext "A.SVG" = ".SVG" ∧ Ext "b.png" = ".png" ∧
    identifyFiles sampleOS "*.jpg" = Except.ok [] :=
  ⟨(identifyFiles_filter sampleOS "*" ["a.svg", "A.SVG", "b.png", "d.svg", "svg", "c.svg"]
      rfl (fun _ _ => ⟨_, rfl⟩)).1.trans (by decide),
   by decide, by decide,
   (identifyFiles_filter sampleOS "*.jpg" [] (by decide) (fun _ _ => ⟨_, rfl⟩)).2
      (fun _ hp => absurd hp (List.not_mem_nil _))⟩

/-! ## Fields separated by one space, and by whitespace -/

theorem splitChars_no_sep (sep : Char) (a : List Char) (h : sep ∉ a) :
    splitChars sep a = [a] := by
  induction a with
  | nil => rfl
  | cons c cs ih =>
    have hc : ¬ c = sep := fun e => h (e ▸ List.mem_cons_self _ _)
    have ih2 := ih (fun hm => h (List.mem_cons_of_mem _ hm))
    simp [splitChars, hc, ih2]

theorem splitChars_append_sep (sep : Char) (a rest : List Char) (h : sep ∉ a) :
    splitChars sep (a ++ sep :: rest) = a :: splitChars sep rest := by
  induction a with
  | nil => simp [splitChars]
  | cons c cs ih =>
    have hc : ¬ c = sep := fun e => h (e ▸ List.mem_cons_self _ _)
    have ih2 := ih (fun hm => h (List.mem_cons_of_mem _ hm))
    simp [splitChars, hc, ih2]

theorem isWholeChars_no_space (s : List Char) (h : isWholeChars s = true) : ' ' ∉ s := by
  have hd : ∀ cs : List Char, (∀ c ∈ cs, isDigit c = true) → ' ' ∉ cs := by
    intro cs hcs hm
    have := hcs _ hm
    simp [isDigit] at this
  cases s with
  | nil => simp
  | cons c cs =>
    by_cases hsign : c = '+' ∨ c = '-'
    · simp only [isWholeChars, hsign, if_true, Bool.and_eq_true, all_digits_iff] at h
      intro hm
      rcases List.mem_cons.mp hm with e | hm
      · rcases hsign with e2 | e2 <;>
          · rw [e2] at e
            revert e
            decide
      · exact hd cs h.2 hm
    · simp only [isWholeChars, hsign, if_false, all_digits_iff] at h
      exact hd _ h

/-- Four fields without a space, joined by one space each, split into
themselves. -/
theorem Split_joined (a b c d : String)
    (ha : ' ' ∉ a.data) (hb : ' ' ∉ b.data) (hc : ' ' ∉ c.data) (hd : ' ' ∉ d.data) :
    Split (a ++ " " ++ b ++ " " ++ c ++ " " ++ d) ' ' = [a, b, c, d] := by
  have e : (a ++ " " ++ b ++ " " ++ c ++ " " ++ d).data =
      a.data ++ ' ' :: (b.data ++ ' ' :: (c.data ++ ' ' :: d.data)) := by
    simp [String.data_append]
  unfold Split
  rw [e, splitChars_append_sep _ _ _ ha, splitChars_append_sep _ _ _ hb,
    splitChars_append_sep _ _ _ hc, splitChars_no_sep _ _ hd]
  rfl

/-- C10, as the code has it: when the viewBox string is four base-10 whole
numbers with exactly one space character between consecutive ones, and the
third and the fourth fit a 64-bit `int`, `parseViewBox` succeeds and returns
the values of the third and the fourth as (width, height). -/
theorem parseViewBox_single_spaces (g : SVG) (a b c d : String)
    (hv : g.ViewBox = a ++ " " ++ b ++ " " ++ c ++ " " ++ d)
    (ha : isWholeNumber a = true) (hb : isWholeNumber b = true)
    (hc : isWholeNumber c = true) (hd : isWholeNumber d = true)
    (fc : fitsInt (wholeNumberValue c)) (fd : fitsInt (wholeNumberValue d)) :
    parseViewBox g = Except.ok (wholeNumberValue c, wholeNumberValue d) := by
  have hs : Split g.ViewBox ' ' = [a, b, c, d] := by
    rw [hv]
    exact Split_joined a b c d (isWholeChars_no_space _ ha) (isWholeChars_no_space _ hb)
      (isWholeChars_no_space _ hc) (isWholeChars_no_space _ hd)
  rw [parseViewBox_of_split g a b c d hs, (Atoi_ok_iff c _).mpr ⟨hc, rfl, fc⟩,
    (Atoi_ok_iff d _).mpr ⟨hd, rfl, fd⟩]

/-- Witness of the amended C10: the viewBox `-5 +7 100 50`. -/
theorem parseViewBox_single_spaces_witness :
    parseViewBox ⟨⟨"", "svg"⟩, "", "", "", "-5 +7 100 50", ⟨""⟩⟩ = Except.ok (100, 50) :=
  (parseViewBox_single_spaces ⟨⟨"", "svg"⟩, "", "", "", "-5 +7 100 50", ⟨""⟩⟩
    "-5" "+7" "100" "50" (by decide) (by decide) (by decide) (by decide) (by decide)
    (by decide) (by decide)).trans (by decide)

/-- Counterexample to C10: the strings `0 0<tab>24 24`, `0  0 24 24` (two
spaces) and `0 0 24<newline>24` are four base-10 integers separated by
whitespace, and `parseViewBox` fails on each with the error
`viewBox not probably defined`; on `0 0 9223372036854775808 24` it fails with
a range error. -/
theorem parseViewBox_whitespace_counterexample :
    (whitespaceFields "0 0\t24 24" = ["0", "0", "24", "24"] ∧
      parseViewBox ⟨⟨"", "svg"⟩, "", "", "", "0 0\t24 24", ⟨""⟩⟩ =
        Except.error (Error.Errorf "viewBox not probably defined")) ∧
    (whitespaceFields "0  0 24 24" = ["0", "0", "24", "24"] ∧
      parseViewBox ⟨⟨"", "svg"⟩, "", "", "", "0  0 24 24", ⟨""⟩⟩ =
        Except.error (Error.Errorf "viewBox not probably defined")) ∧
    (whitespaceFields "0 0 24\n24" = ["0", "0", "24", "24"] ∧
      parseViewBox ⟨⟨"", "svg"⟩, "", "", "", "0 0 24\n24", ⟨""⟩⟩ =
        Except.error (Error.Errorf "viewBox not probably defined")) ∧
    (whitespaceFields "0 0 9223372036854775808 24" =
        ["0", "0", "9223372036854775808", "24"] ∧
      isWholeNumber "9223372036854775808" = true ∧
      parseViewBox ⟨⟨"", "svg"⟩, "", "", "", "0 0 9223372036854775808 24", ⟨""⟩⟩ =
        Except.error (Error.NumError "Atoi" "9223372036854775808" NumErr.ErrRange)) := by
  decide

end Patchsvg
